import Mathlib

/-!
Verification of the mailbox-sync and indexing core of the repository:
`backend/imap_sync/email_fetcher.py`, `backend/imap_sync/imap_client.py`
and `backend/database/elastic_manager.py`, shallowly embedded in Lean.

External collaborators (the `email.utils` date parser, the IMAP transport,
the IMAP reconnect routine, the Elasticsearch client, the text analyzer and
the notification callback) are passed in as explicit parameters; the bodies
of the repository functions are translated statement by statement.
-/

/-! ## Data model -/

/-- A Python `datetime` value: a naive clock reading plus an optional
timezone (`tz = none` models `tzinfo is None`; `tz = some o` a fixed UTC
offset, `some 0` being UTC). -/
structure PyDateTime where
  naive : Nat
  tz : Option Int
  deriving Repr, DecidableEq

/-- `datetime.now(pytz.UTC)` at clock reading `t`: a timezone-aware UTC
instant. -/
def utcNow (t : Nat) : PyDateTime := ⟨t, some 0⟩

/-- A raw email record as produced by `IMAPConnection.fetch_recent_emails`
(keys `uid`, `subject`, `sender`, `date`, `content`); `email_data.get(k, '')`
on a missing string key yields `''`, so absent header strings are modelled
as `""`. -/
structure RawEmail where
  uid : Nat
  subject : String
  sender : String
  date : String
  content : String
  deriving Repr, DecidableEq

/-- The normalized message built by `EmailFetcher._process_email`. -/
structure ProcessedEmail where
  uid : Nat
  subject : String
  sender : String
  content : String
  timestamp : PyDateTime
  categories : List String
  is_read : Bool
  is_flagged : Bool
  is_interested : Bool
  deriving Repr, DecidableEq

/-- Python `s.strip()`: drop leading and trailing whitespace. -/
def pyStrip (s : String) : String :=
  String.mk (((s.data.dropWhile Char.isWhitespace).reverse.dropWhile
    Char.isWhitespace).reverse)

/-- Python `s.strip() or default`: the stripped string if non-empty,
otherwise the default placeholder. -/
def stripOr (s dflt : String) : String :=
  if pyStrip s = "" then dflt else pyStrip s

/-! ## `EmailFetcher._process_email` (email_fetcher.py lines 68-103)

`parsedate` models `email.utils.parsedate_to_datetime`: `none` means the
library call raises on that date string.  The whole body runs inside
`try/except` whose handler logs and re-raises, so a parse failure makes
`_process_email` itself raise, modelled by the `none` result. -/

def process_email (parsedate : String → Option PyDateTime) (now : Nat)
    (e : RawEmail) : Option ProcessedEmail :=
  let dateStr := e.date
  if dateStr ≠ "" then
    match parsedate dateStr with
    | none => none
    | some d =>
      let d' := if d.tz = none then { d with tz := some 0 } else d
      some {
        uid := e.uid
        subject := stripOr e.subject "(No Subject)"
        sender := stripOr e.sender "(No Sender)"
        content := stripOr e.content "(No Content)"
        timestamp := d'
        categories := []
        is_read := false
        is_flagged := false
        is_interested := false }
  else
    some {
      uid := e.uid
      subject := stripOr e.subject "(No Subject)"
      sender := stripOr e.sender "(No Sender)"
      content := stripOr e.content "(No Content)"
      timestamp := utcNow now
      categories := []
      is_read := false
      is_flagged := false
      is_interested := false }

/-! ## `EmailFetcher.full_sync` (email_fetcher.py lines 105-141)

The per-record loop body is one `try/except` that, for an unseen uid,
normalizes the record, appends it to the result list, adds the uid to the
batch's `new_uids` set and, when a callback is registered, invokes it.
`_process_email` raising is caught by the handler before the append/add, so
the uid is not recorded; the callback raising is caught after both, so its
failure changes nothing (`cbRaises` has no effect on the outcome beyond the
invocation itself having happened, which `cbLog` records).  `_last_seen_uids`
is read unchanged throughout the loop and extended with `new_uids` only
after it. -/

/-- One pass of the `for email_data in raw_emails` loop: returns the
processed list, the `new_uids` additions (in order), and the list of
callback invocations. -/
def syncFold (parsedate : String → Option PyDateTime) (now : Nat)
    (hasCb : Bool) (cbRaises : ProcessedEmail → Bool) (seen : List Nat) :
    List RawEmail → List ProcessedEmail × List Nat × List ProcessedEmail
  | [] => ([], [], [])
  | r :: rest =>
    let tail := syncFold parsedate now hasCb cbRaises seen rest
    if r.uid ∈ seen then tail
    else
      match process_email parsedate now r with
      | none => tail
      | some p =>
        (p :: tail.1, r.uid :: tail.2.1,
          (if hasCb then [p] else []) ++ tail.2.2)

/-- Result of one `full_sync` call: the returned value (or the re-raised
exception), the seen-uid set and last-sync timestamp after the call, and
the callback invocations made during it. -/
structure SyncResult where
  result : Except String (List ProcessedEmail)
  seen : List Nat
  lastSync : Option Nat
  cbLog : List ProcessedEmail
  deriving Repr

/-- `full_sync`: `fetched` is the outcome of
`self.connection.fetch_recent_emails()` (`error` = that call raised, which
the outer handler logs and re-raises with state untouched); on success the
loop runs, `_last_seen_uids` absorbs `new_uids`, and `last_sync` becomes
`now`. -/
def full_sync (parsedate : String → Option PyDateTime) (now : Nat)
    (hasCb : Bool) (cbRaises : ProcessedEmail → Bool)
    (fetched : Except String (List RawEmail)) (seen : List Nat)
    (lastSync : Option Nat) : SyncResult :=
  match fetched with
  | .error e => ⟨.error e, seen, lastSync, []⟩
  | .ok raws =>
    let out := syncFold parsedate now hasCb cbRaises seen raws
    ⟨.ok out.1, seen ++ out.2.1, some now, out.2.2⟩

/-! ## `IMAPConnection.fetch_recent_emails` (imap_client.py lines 143-201)

`batch` is the combined outcome of `ensure_connection`, `select_folder`,
`search` and `fetch` (`error` = any of them raised, reaching the outer
handler); `decode` is the per-message header/body decoding, whose failure
is caught by the inner handler and skips just that message; `reconn` is the
outcome of `self.reconnect()` in the outer handler (which itself re-raises
when the reconnection fails). -/

def fetch_recent_emails (batch : Except String (List RawEmail))
    (decode : RawEmail → Option RawEmail) (reconn : Except String Unit) :
    Except String (List RawEmail) :=
  match batch with
  | .ok msgs => .ok (msgs.filterMap decode)
  | .error _ =>
    match reconn with
    | .ok _ => .ok []
    | .error e => .error e

/-! ## `IMAPConnection._connect` (imap_client.py lines 55-78)

`attempt k` is the outcome of the `k`-th (0-based) try of
`IMAPClient(...)` + `login` (`none` = success, `some e` = a caught
connection-class failure).  The loop keeps a failure counter `attempts`;
after a failure it retries while `attempts < retry_limit` and raises
`ConnectionError` carrying the last cause once `attempts` reaches the
limit.  `connectGo attempt k r` runs the loop from failure count `k` with
`r = retry_limit - k` iterations left; it returns the outcome together
with the total number of connection tries performed. -/

def connectGo (attempt : Nat → Option String) :
    Nat → Nat → Except String Unit × Nat
  | k, 0 => (.ok (), k)
  | k, r + 1 =>
    match attempt k with
    | none => (.ok (), k + 1)
    | some e =>
      match r with
      | 0 => (.error e, k + 1)
      | r' + 1 => connectGo attempt (k + 1) (r' + 1)

/-- `_connect` with the given retry limit: result plus number of tries. -/
def connect (attempt : Nat → Option String) (retry_limit : Nat) :
    Except String Unit × Nat :=
  connectGo attempt 0 retry_limit

/-! ## `ElasticManager` document model (elastic_manager.py) -/

/-- An email document as indexed into the `emails` index.  `uid` is
`email.get('uid')` — `none` when the dict lacks the key.  Timestamps are
modelled as totally ordered instants. -/
structure EmailDoc where
  uid : Option Nat
  subject : String
  sender : String
  content : String
  timestamp : Nat
  categories : List String
  is_read : Bool
  is_flagged : Bool
  is_interested : Bool
  account : String
  deriving Repr, DecidableEq

/-- Errors surfaced by the Elasticsearch client: `notFound` is
`exceptions.NotFoundError`; `other` is any other transport/storage
failure. -/
inductive EsErr where
  | notFound
  | other (msg : String)
  deriving Repr, DecidableEq

/-- The document store backing the `emails` index: id-to-document pairs,
at most one per id. -/
abbrev EsStore := List (Nat × EmailDoc)

/-! ## `ElasticManager.index_email` (lines 108-127)

`self.client.index(index, document=email, id=email.get('uid'))`: with an
explicit id the server replaces the whole document at that id; with
`id=None` it auto-generates a fresh id, `fresh`. -/

def esIndex (store : EsStore) (id : Option Nat) (doc : EmailDoc)
    (fresh : Nat) : EsStore :=
  match id with
  | some i => (List.filter (fun kv => kv.1 ≠ i) store) ++ [(i, doc)]
  | none => store ++ [(fresh, doc)]

/-- `index_email email` applied to a store state. -/
def index_email (store : EsStore) (email : EmailDoc) (fresh : Nat) :
    EsStore :=
  esIndex store email.uid email fresh

/-- Documents stored under a given id. -/
def docsAt (store : EsStore) (id : Nat) : List EmailDoc :=
  (List.filter (fun kv => kv.1 = id) store).map (fun kv => kv.2)

/-! ## `ElasticManager.bulk_index_emails` (lines 129-153)

The method returns `None` on success; the value returned by
`self.client.bulk(operations=actions)` — which for the Elasticsearch bulk
API is a per-item report with an `errors` flag, raising only on
transport-level failure — is discarded.  `client` models that call;
the second component of the result records the calls made to it. -/

/-- One bulk action as built in the loop:
`{"_index": ..., "_id": email.get('uid'), "_source": email}`. -/
structure BulkAction where
  idx : String
  id : Option Nat
  source : EmailDoc
  deriving Repr, DecidableEq

def toAction (email : EmailDoc) : BulkAction :=
  ⟨"emails", email.uid, email⟩

/-- The value of a non-raising `client.bulk` call: `itemErrors` is the
response's `errors` flag (some item in the batch failed). -/
structure BulkResponse where
  itemErrors : Bool
  deriving Repr, DecidableEq

def bulk_index_emails
    (client : List BulkAction → Except String BulkResponse)
    (emails : List EmailDoc) :
    Except String Unit × List (List BulkAction) :=
  if emails.isEmpty then (.ok (), [])
  else
    let actions := emails.map toAction
    if actions.isEmpty then (.ok (), [])
    else
      match client actions with
      | .ok _resp => (.ok (), [actions])
      | .error e => (.error e, [actions])

/-! ## `get_email` / `update_email` / `delete_email` (lines 252-315)

Each wraps one client call in `try/except` that converts
`NotFoundError` into `None` / `False` and re-raises anything else.  The
wrapped call's outcome is the parameter `r`. -/

def get_email (r : Except EsErr EmailDoc) : Except EsErr (Option EmailDoc) :=
  match r with
  | .ok d => .ok (some d)
  | .error .notFound => .ok none
  | .error (.other s) => .error (.other s)

def update_email (r : Except EsErr Unit) : Except EsErr Bool :=
  match r with
  | .ok _ => .ok true
  | .error .notFound => .ok false
  | .error (.other s) => .error (.other s)

def delete_email (r : Except EsErr Unit) : Except EsErr Bool :=
  match r with
  | .ok _ => .ok true
  | .error .notFound => .ok false
  | .error (.other s) => .error (.other s)

/-- `self.client.get(index, id)` against a healthy store: the document at
`id`, or `NotFoundError`. -/
def clientGet (store : EsStore) (id : Nat) : Except EsErr EmailDoc :=
  match List.find? (fun kv => kv.1 = id) store with
  | some kv => .ok kv.2
  | none => .error .notFound

/-- `self.client.update(index, id, body={"doc": ...})` against a healthy
store: `NotFoundError` when `id` is absent. -/
def clientUpdate (store : EsStore) (id : Nat) : Except EsErr Unit :=
  match List.find? (fun kv => kv.1 = id) store with
  | some _ => .ok ()
  | none => .error .notFound

/-- `self.client.delete(index, id)` against a healthy store. -/
def clientDelete (store : EsStore) (id : Nat) : Except EsErr Unit :=
  match List.find? (fun kv => kv.1 = id) store with
  | some _ => .ok ()
  | none => .error .notFound

/-! ## `ElasticManager.search_emails` (lines 155-250)

The method builds `must_conditions` exactly as the Python does (each
`if` guard is Python truthiness: `None` and empty strings/lists are
falsy; `is_interested` is compared to `None` explicitly), wraps them in a
`bool.must` query (or `match_all` when empty), sorts by `timestamp`
descending and pages with `from = (page-1)*size, size`.  `tm q f` models
the analyzer: the free-text query `q` matches the field text `f`; the
`^2` boost on `subject` affects scoring only, and scores are never used
because the sort is on `timestamp`. -/

/-- One entry of `must_conditions`. -/
inductive Cond where
  | multiMatch (q : String)
  | termsCategories (cats : List String)
  | termInterested (b : Bool)
  | termAccount (a : String)
  | rangeTimestamp (gte lte : Option Nat)
  | matchAll
  deriving Repr, DecidableEq

/-- The `must_conditions` list (lines 183-214). -/
def buildConds (query : Option String) (categories : Option (List String))
    (is_interested : Option Bool) (account : Option String)
    (from_date to_date : Option Nat) : List Cond :=
  (match query with
   | some q => if q ≠ "" then [Cond.multiMatch q] else []
   | none => []) ++
  (match categories with
   | some cs => if cs ≠ [] then [Cond.termsCategories cs] else []
   | none => []) ++
  (match is_interested with
   | some b => [Cond.termInterested b]
   | none => []) ++
  (match account with
   | some a => if a ≠ "" then [Cond.termAccount a] else []
   | none => []) ++
  (if from_date.isSome || to_date.isSome then
     [Cond.rangeTimestamp from_date to_date]
   else [])

/-- `must_conditions if must_conditions else [{"match_all": {}}]`
(line 220). -/
def finalConds (conds : List Cond) : List Cond :=
  if conds = [] then [Cond.matchAll] else conds

/-- Whether a stored document satisfies one condition, per the documented
Elasticsearch semantics of each clause. -/
def evalCond (tm : String → String → Bool) (d : EmailDoc) : Cond → Bool
  | .multiMatch q => tm q d.subject || tm q d.content || tm q d.sender
  | .termsCategories cats => cats.any (fun c => d.categories.contains c)
  | .termInterested b => d.is_interested == b
  | .termAccount a => d.account == a
  | .rangeTimestamp gte lte =>
    (match gte with | some g => decide (g ≤ d.timestamp) | none => true) &&
    (match lte with | some l => decide (d.timestamp ≤ l) | none => true)
  | .matchAll => true

/-- The set of documents matching the `bool.must` query, in store order:
a `must` list is a conjunction of its clauses. -/
def matchedDocs (tm : String → String → Bool) (store : List EmailDoc)
    (query : Option String) (categories : Option (List String))
    (is_interested : Option Bool) (account : Option String)
    (from_date to_date : Option Nat) : List EmailDoc :=
  store.filter (fun d =>
    (finalConds (buildConds query categories is_interested account
      from_date to_date)).all (evalCond tm d))

/-- The sort key relation of `"sort": [{"timestamp": "desc"}]`:
most recent first. -/
def tsGE (a b : EmailDoc) : Prop := b.timestamp ≤ a.timestamp

instance : DecidableRel tsGE := fun a b => Nat.decLe b.timestamp a.timestamp

instance : IsTotal EmailDoc tsGE :=
  ⟨fun a b => le_total b.timestamp a.timestamp⟩

instance : IsTrans EmailDoc tsGE :=
  ⟨fun _ _ _ h1 h2 => le_trans h2 h1⟩

/-- The engine's descending-timestamp ordering of the matching documents. -/
def sortDesc (l : List EmailDoc) : List EmailDoc :=
  List.insertionSort tsGE l

/-- The dictionary returned by `search_emails` (lines 240-246). -/
structure SearchResult where
  emails : List EmailDoc
  total : Nat
  page : Nat
  size : Nat
  pages : Nat
  deriving Repr, DecidableEq

/-- `search_emails` over a store: filter by the built query, sort by
timestamp descending, return the window `from = (page-1)*size, size`,
the total match count, and `pages = (total + size - 1) // size`. -/
def search_emails (tm : String → String → Bool) (store : List EmailDoc)
    (query : Option String) (categories : Option (List String))
    (is_interested : Option Bool) (account : Option String)
    (from_date to_date : Option Nat) (page : Nat) (size : Nat) :
    SearchResult :=
  let matched := matchedDocs tm store query categories is_interested
    account from_date to_date
  let sorted := sortDesc matched
  { emails := (sorted.drop ((page - 1) * size)).take size
    total := matched.length
    page := page
    size := size
    pages := (matched.length + size - 1) / size }

/-! ## Shared concrete sample data -/

/-- A concrete stored email document used in witnesses. -/
def sampleDoc : EmailDoc :=
  ⟨some 1, "hello", "bob", "body", 10, ["Spam"], false, false, true, "acct"⟩

/-! ## Claims -/

/-- C1 counterexample: a record whose date header is present but
unparsable (the parser raises on it) makes `_process_email` itself raise
— it does not fall back to the ingestion time, refuting "the
normalization never fails on a bad date". -/
theorem process_email_unparsable_date_raises :
    process_email (fun _ => none) 1000 ⟨1, "s", "x", "garbage", "c"⟩ =
      none := rfl

/-- C1 (amended): `_process_email` defaults the timestamp to the
ingestion time only when the date header is absent/empty; when the date
string is present but unparsable it raises (so `full_sync` skips that
record); any timestamp it does produce is timezone-aware (naive parses
get UTC attached). -/
theorem process_email_timestamp_spec
    (parsedate : String → Option PyDateTime) (now : Nat) (e : RawEmail) :
    (e.date = "" → ∃ p, process_email parsedate now e = some p ∧
       p.timestamp = utcNow now) ∧
    (e.date ≠ "" → parsedate e.date = none →
       process_email parsedate now e = none) ∧
    (∀ p, process_email parsedate now e = some p →
       p.timestamp.tz ≠ none) := by
  refine ⟨fun h => ?_, fun h hp => ?_, fun p hp => ?_⟩
  · simp only [process_email, h, ite_not, if_pos rfl]
    exact ⟨_, rfl, rfl⟩
  · simp [process_email, h, hp]
  · by_cases hd : e.date = ""
    · simp [process_email, hd] at hp
      simp [← hp, utcNow]
    · cases hpd : parsedate e.date with
      | none => simp [process_email, hd, hpd] at hp
      | some d =>
        simp [process_email, hd, hpd] at hp
        by_cases htz : d.tz = none
        · simp [htz] at hp
          simp [← hp]
        · simp [htz] at hp
          simpa [← hp] using htz

/-- C1 witness: the amended behaviour at concrete inputs — an empty date
defaults to the ingestion instant, and an unparsable date makes the
normalization fail. -/
theorem process_email_timestamp_spec_witness :
    (∃ p, process_email (fun _ => none) 7 ⟨1, "", "", "", ""⟩ = some p ∧
       p.timestamp = utcNow 7) ∧
    process_email (fun _ => none) 7 ⟨2, "a", "b", "bad", "c"⟩ = none :=
  ⟨(process_email_timestamp_spec (fun _ => none) 7 ⟨1, "", "", "", ""⟩).1
     rfl,
   (process_email_timestamp_spec (fun _ => none) 7
     ⟨2, "a", "b", "bad", "c"⟩).2.1 (by decide) rfl⟩

/-- C2 counterexample: a bulk call that returns a response whose
per-item report has `errors = true` is treated as success —
`bulk_index_emails` discards the response and the item-level failures
are silently dropped, refuting "partial batch failure is surfaced to the
caller as a single error". -/
theorem bulk_index_drops_item_failures :
    bulk_index_emails (fun _ => .ok ⟨true⟩) [sampleDoc] =
      (.ok (), [[toAction sampleDoc]]) ∧
    (fun (_ : List BulkAction) =>
        (.ok ⟨true⟩ : Except String BulkResponse))
      ([sampleDoc].map toAction) = .ok ⟨true⟩ :=
  ⟨rfl, rfl⟩

/-- C2 (amended): a batch of size 0 is a no-op (no storage call, no
error); an exception raised by the bulk call itself (transport-level
failure) is surfaced to the caller; but a bulk response reporting
item-level failures is never inspected — the call reports success
regardless of the response contents. -/
theorem bulk_index_spec
    (client : List BulkAction → Except String BulkResponse)
    (emails : List EmailDoc) :
    (emails = [] → bulk_index_emails client emails = (.ok (), [])) ∧
    (emails ≠ [] → ∀ e, client (emails.map toAction) = .error e →
       bulk_index_emails client emails =
         (.error e, [emails.map toAction])) ∧
    (emails ≠ [] → ∀ resp, client (emails.map toAction) = .ok resp →
       bulk_index_emails client emails =
         (.ok (), [emails.map toAction])) := by
  refine ⟨fun h => by simp [bulk_index_emails, h], fun h e he => ?_,
    fun h resp hr => ?_⟩
  · cases emails with
    | nil => exact absurd rfl h
    | cons a l =>
      simp only [List.map_cons] at he
      simp [bulk_index_emails, he]
  · cases emails with
    | nil => exact absurd rfl h
    | cons a l =>
      simp only [List.map_cons] at hr
      simp [bulk_index_emails, hr]

/-- C2 witness: the amended behaviour at concrete inputs — empty batch
is a no-op, a raising bulk call is surfaced, a clean response yields
success. -/
theorem bulk_index_spec_witness :
    bulk_index_emails (fun _ => .ok ⟨false⟩) [] = (.ok (), []) ∧
    bulk_index_emails (fun _ => .error "down") [sampleDoc] =
      (.error "down", [[sampleDoc].map toAction]) ∧
    bulk_index_emails (fun _ => .ok ⟨false⟩) [sampleDoc] =
      (.ok (), [[sampleDoc].map toAction]) :=
  ⟨(bulk_index_spec (fun _ => .ok ⟨false⟩) []).1 rfl,
   (bulk_index_spec (fun _ => .error "down") [sampleDoc]).2.1
     (by simp) "down" rfl,
   (bulk_index_spec (fun _ => .ok ⟨false⟩) [sampleDoc]).2.2
     (by simp) ⟨false⟩ rfl⟩

/-- Unfolding equation of the retry loop body. -/
lemma connectGo_succ (attempt : Nat → Option String) (k r : Nat) :
    connectGo attempt k (r + 1) =
      (match attempt k with
       | none => (Except.ok (), k + 1)
       | some e =>
         match r with
         | 0 => (Except.error e, k + 1)
         | r' + 1 => connectGo attempt (k + 1) (r' + 1)) := by
  conv_lhs => rw [connectGo]

/-- The retry loop never performs more tries than `k + r`. -/
lemma connectGo_tries_le (attempt : Nat → Option String) :
    ∀ r k, (connectGo attempt k r).2 ≤ k + r := by
  intro r
  induction r with
  | zero => intro k; simp [connectGo]
  | succ r ih =>
    intro k
    rw [connectGo_succ]
    cases hA : attempt k with
    | none => simp only; omega
    | some e =>
      cases r with
      | zero => simp only; omega
      | succ r' =>
        have := ih (k + 1)
        simp only
        omega

/-- First success at failure count `k + j` (with `j < r` iterations
still allowed): the loop returns ok after `k + j + 1` tries. -/
lemma connectGo_first_success (attempt : Nat → Option String) :
    ∀ r j k, j < r → attempt (k + j) = none →
      (∀ i, i < j → attempt (k + i) ≠ none) →
      connectGo attempt k r = (.ok (), k + j + 1) := by
  intro r
  induction r with
  | zero => intro j k hj; omega
  | succ r ih =>
    intro j k hj hsucc hfail
    cases j with
    | zero =>
      simp only [Nat.add_zero] at hsucc
      simp [connectGo, hsucc]
    | succ j' =>
      have h0 : attempt k ≠ none := by
        have := hfail 0 (Nat.succ_pos j')
        simpa using this
      cases hA : attempt k with
      | none => exact absurd hA h0
      | some e =>
        cases r with
        | zero => omega
        | succ r' =>
          have hrec := ih j' (k + 1) (by omega)
            (by rw [show k + 1 + j' = k + (j' + 1) by omega]; exact hsucc)
            (fun i hi => by
              rw [show k + 1 + i = k + (i + 1) by omega]
              exact hfail (i + 1) (by omega))
          rw [connectGo_succ, hA]
          simp only
          rw [hrec]
          congr 1
          omega

/-- All `r ≥ 1` remaining tries fail: the loop raises the last failure's
cause after exactly `k + r` tries. -/
lemma connectGo_all_fail (attempt : Nat → Option String) :
    ∀ r k, 1 ≤ r → (∀ i, i < r → attempt (k + i) ≠ none) →
      ∃ e, attempt (k + r - 1) = some e ∧
        connectGo attempt k r = (.error e, k + r) := by
  intro r
  induction r with
  | zero => intro k h0; omega
  | succ r ih =>
    intro k _ hfail
    have h0 : attempt k ≠ none := by simpa using hfail 0 (Nat.succ_pos r)
    cases hA : attempt k with
    | none => exact absurd hA h0
    | some e =>
      cases r with
      | zero =>
        refine ⟨e, by simpa using hA, ?_⟩
        rw [connectGo_succ, hA]
      | succ r' =>
        obtain ⟨e', he', hrec⟩ := ih (k + 1) (by omega)
          (fun i hi => by
            rw [show k + 1 + i = k + (i + 1) by omega]
            exact hfail (i + 1) (by omega))
        refine ⟨e', ?_, ?_⟩
        · rw [show k + (r' + 1 + 1) - 1 = k + 1 + (r' + 1) - 1 by omega]
          exact he'
        · rw [connectGo_succ, hA]
          simp only
          rw [hrec]
          congr 1
          omega

/-- C3: `_connect` makes at most `retry_limit` tries; if the first
successful try is the `(k+1)`-st with `k < retry_limit`, it returns
without raising after exactly `k + 1` tries; and if every allowed try
fails, it raises a `ConnectionError` carrying the last try's cause
after exactly `retry_limit` tries. -/
theorem connect_retry_spec (attempt : Nat → Option String)
    (retry_limit : Nat) (hlim : 1 ≤ retry_limit) :
    ((connect attempt retry_limit).2 ≤ retry_limit) ∧
    (∀ k, k < retry_limit → attempt k = none →
      (∀ j, j < k → attempt j ≠ none) →
      connect attempt retry_limit = (.ok (), k + 1)) ∧
    ((∀ k, k < retry_limit → attempt k ≠ none) →
      ∃ e, attempt (retry_limit - 1) = some e ∧
        connect attempt retry_limit = (.error e, retry_limit)) := by
  refine ⟨?_, fun k hk hsucc hfail => ?_, fun hfail => ?_⟩
  · simpa using connectGo_tries_le attempt retry_limit 0
  · simpa using connectGo_first_success attempt retry_limit k 0 hk
      (by simpa using hsucc) (fun i hi => by simpa using hfail i hi)
  · simpa using connectGo_all_fail attempt retry_limit 0 hlim
      (fun i hi => by simpa using hfail i hi)

/-- C3 witness: with retry_limit 3, two failures then a success succeed
on the 3rd try; three failures raise the last cause after exactly 3
tries. -/
theorem connect_retry_spec_witness :
    connect (fun k => if k < 2 then some "boom" else none) 3 =
      (.ok (), 3) ∧
    (∃ e, (fun (_ : Nat) => some "down") (3 - 1) = some e ∧
      connect (fun _ => some "down") 3 = (.error e, 3)) :=
  ⟨(connect_retry_spec (fun k => if k < 2 then some "boom" else none) 3
      (by decide)).2.1 2 (by decide) (by decide)
      (fun j hj => by interval_cases j <;> decide),
   (connect_retry_spec (fun _ => some "down") 3 (by decide)).2.2
      (fun k _ => by simp)⟩

/-- Whether `_process_email` raises depends only on the record's date
string, never on the ingestion clock. -/
lemma process_email_none_iff (parsedate : String → Option PyDateTime)
    (now : Nat) (e : RawEmail) :
    process_email parsedate now e = none ↔
      (e.date ≠ "" ∧ parsedate e.date = none) := by
  by_cases hd : e.date = ""
  · simp [process_email, hd]
  · cases hp : parsedate e.date with
    | none => simp [process_email, hd, hp]
    | some d => by_cases htz : d.tz = none <;>
        simp [process_email, hd, hp, htz]

/-- Normalization preserves the record's uid. -/
lemma process_email_uid (parsedate : String → Option PyDateTime)
    (now : Nat) (e : RawEmail) (p : ProcessedEmail)
    (h : process_email parsedate now e = some p) : p.uid = e.uid := by
  by_cases hd : e.date = ""
  · simp [process_email, hd] at h
    simp [← h]
  · cases hp : parsedate e.date with
    | none => simp [process_email, hd, hp] at h
    | some d =>
      simp [process_email, hd, hp] at h
      simp [← h]

/-- Closed form of the `full_sync` record loop: the returned list is the
normalizations of the unseen records that normalize, `new_uids` their
uids, and the callback log equals the returned list when a callback is
registered. -/
lemma syncFold_eq (parsedate : String → Option PyDateTime) (now : Nat)
    (hasCb : Bool) (cbRaises : ProcessedEmail → Bool) (seen : List Nat) :
    ∀ raws, syncFold parsedate now hasCb cbRaises seen raws =
      (raws.filterMap (fun r =>
         if r.uid ∈ seen then none else process_email parsedate now r),
       (raws.filter (fun r => decide (r.uid ∉ seen) &&
          (process_email parsedate now r).isSome)).map RawEmail.uid,
       if hasCb then
         raws.filterMap (fun r =>
           if r.uid ∈ seen then none else process_email parsedate now r)
       else []) := by
  intro raws
  induction raws with
  | nil => cases hasCb <;> simp [syncFold]
  | cons r rest ih =>
    by_cases hs : r.uid ∈ seen
    · cases hp : process_email parsedate now r with
      | none => simp [syncFold, hs, ih, hp]
      | some p => simp [syncFold, hs, ih, hp]
    · cases hp : process_email parsedate now r with
      | none =>
        have : (process_email parsedate now r).isSome = false := by
          simp [hp]
        simp [syncFold, hs, ih, hp, this]
      | some p =>
        have : (process_email parsedate now r).isSome = true := by
          simp [hp]
        cases hasCb <;> simp [syncFold, hs, ih, hp, this]

/-- A `full_sync` pass in which every record is either already seen or
fails to normalize returns the empty list, leaves the seen-set
unchanged, makes no callback invocation, and still advances the
last-sync timestamp. -/
lemma full_sync_skip_all (parsedate : String → Option PyDateTime)
    (now : Nat) (hasCb : Bool) (cbRaises : ProcessedEmail → Bool)
    (raws : List RawEmail) (seen : List Nat) (ls : Option Nat)
    (h : ∀ r ∈ raws, r.uid ∉ seen →
      process_email parsedate now r = none) :
    full_sync parsedate now hasCb cbRaises (.ok raws) seen ls =
      ⟨.ok [], seen, some now, []⟩ := by
  have hfm : raws.filterMap (fun r =>
      if r.uid ∈ seen then none else process_email parsedate now r) =
      [] := by
    refine List.filterMap_eq_nil_iff.mpr (fun r hr => ?_)
    by_cases hm : r.uid ∈ seen
    · simp [hm]
    · simp [hm, h r hr hm]
  have hfl : raws.filter (fun r => decide (r.uid ∉ seen) &&
      (process_email parsedate now r).isSome) = [] := by
    refine List.filter_eq_nil_iff.mpr (fun r hr => ?_)
    by_cases hm : r.uid ∈ seen
    · simp [hm]
    · simp [hm, h r hr hm]
  cases hasCb <;> simp [full_sync, syncFold_eq, hfm, hfl] <;> exact h

/-- C6: running `full_sync` twice over the same server-side message list
produces, on the second run, an empty returned list and zero
notification-callback invocations — every uid that normalized in the
first run is in the seen-set, and every record that failed to normalize
fails again identically. -/
theorem full_sync_twice_dedup (parsedate : String → Option PyDateTime)
    (now1 now2 : Nat) (hasCb : Bool) (cbRaises : ProcessedEmail → Bool)
    (raws : List RawEmail) (seen : List Nat) (ls : Option Nat) :
    (full_sync parsedate now2 hasCb cbRaises (.ok raws)
       (full_sync parsedate now1 hasCb cbRaises (.ok raws) seen ls).seen
       (full_sync parsedate now1 hasCb cbRaises (.ok raws) seen
         ls).lastSync).result = .ok [] ∧
    (full_sync parsedate now2 hasCb cbRaises (.ok raws)
       (full_sync parsedate now1 hasCb cbRaises (.ok raws) seen ls).seen
       (full_sync parsedate now1 hasCb cbRaises (.ok raws) seen
         ls).lastSync).cbLog = [] := by
  have hstep := full_sync_skip_all parsedate now2 hasCb cbRaises raws
    (full_sync parsedate now1 hasCb cbRaises (.ok raws) seen ls).seen
    (full_sync parsedate now1 hasCb cbRaises (.ok raws) seen ls).lastSync
    (by
      intro r hr hmem
      have hseen : (full_sync parsedate now1 hasCb cbRaises (.ok raws)
          seen ls).seen =
          seen ++ (raws.filter (fun r => decide (r.uid ∉ seen) &&
            (process_email parsedate now1 r).isSome)).map RawEmail.uid := by
        simp [full_sync, syncFold_eq]
      rw [hseen, List.mem_append] at hmem
      push_neg at hmem
      obtain ⟨h1, h2⟩ := hmem
      have hp1 : process_email parsedate now1 r = none := by
        by_contra hne
        have hsome : (process_email parsedate now1 r).isSome = true := by
          cases hpe : process_email parsedate now1 r with
          | none => exact absurd hpe hne
          | some p => simp
        refine h2 ?_
        refine List.mem_map.mpr ⟨r, ?_, rfl⟩
        refine List.mem_filter.mpr ⟨hr, ?_⟩
        simp [h1, hsome]
      rw [process_email_none_iff] at hp1
      rw [process_email_none_iff]
      exact hp1)
  rw [hstep]
  exact ⟨rfl, rfl⟩

/-- C9: a batch-level failure inside `fetch_recent_emails` (listing or
fetching raised) is not propagated: after the reconnect succeeds the
method returns the empty list, so an enclosing `full_sync` completes
normally with zero new messages, zero callback invocations, an unchanged
seen-set, and the last-sync timestamp still advanced to now. -/
theorem fetch_batch_failure_swallowed (err : String)
    (decode : RawEmail → Option RawEmail)
    (parsedate : String → Option PyDateTime) (now : Nat) (hasCb : Bool)
    (cbRaises : ProcessedEmail → Bool) (seen : List Nat)
    (ls : Option Nat) :
    fetch_recent_emails (.error err) decode (.ok ()) = .ok [] ∧
    full_sync parsedate now hasCb cbRaises
      (fetch_recent_emails (.error err) decode (.ok ())) seen ls =
      ⟨.ok [], seen, some now, []⟩ := by
  refine ⟨rfl, ?_⟩
  show full_sync parsedate now hasCb cbRaises (.ok []) seen ls = _
  simp [full_sync, syncFold]

/-- C10: during `full_sync` over records with pairwise distinct uids, a
uid joins the seen-set only once its record normalizes: if
`_process_email` fails on an unseen record, that uid is absent from the
post-sync seen-set and no message with that uid is in the returned
list; if it normalizes, then — for every callback behaviour, raising
included — the uid is in the post-sync seen-set and the message is in
the returned list. -/
theorem full_sync_seen_after_normalize
    (parsedate : String → Option PyDateTime) (now : Nat) (hasCb : Bool)
    (cbRaises : ProcessedEmail → Bool) (raws : List RawEmail)
    (seen : List Nat) (ls : Option Nat)
    (hnd : (raws.map RawEmail.uid).Nodup) :
    ∀ r ∈ raws, r.uid ∉ seen →
      (process_email parsedate now r = none →
        r.uid ∉ (full_sync parsedate now hasCb cbRaises (.ok raws) seen
          ls).seen ∧
        (∀ ps, (full_sync parsedate now hasCb cbRaises (.ok raws) seen
            ls).result = .ok ps → ∀ p ∈ ps, p.uid ≠ r.uid)) ∧
      (∀ p, process_email parsedate now r = some p →
        r.uid ∈ (full_sync parsedate now hasCb cbRaises (.ok raws) seen
          ls).seen ∧
        (∀ ps, (full_sync parsedate now hasCb cbRaises (.ok raws) seen
            ls).result = .ok ps → p ∈ ps)) := by
  intro r hr hrs
  have hinj := List.inj_on_of_nodup_map hnd
  have hseen : (full_sync parsedate now hasCb cbRaises (.ok raws) seen
      ls).seen =
      seen ++ (raws.filter (fun x => decide (x.uid ∉ seen) &&
        (process_email parsedate now x).isSome)).map RawEmail.uid := by
    simp [full_sync, syncFold_eq]
  have hres : (full_sync parsedate now hasCb cbRaises (.ok raws) seen
      ls).result =
      .ok (raws.filterMap (fun x =>
        if x.uid ∈ seen then none else process_email parsedate now x)) := by
    simp [full_sync, syncFold_eq]
  constructor
  · intro hnone
    constructor
    · rw [hseen, List.mem_append]
      push_neg
      refine ⟨hrs, fun hmem => ?_⟩
      obtain ⟨x, hxf, hxu⟩ := List.mem_map.mp hmem
      obtain ⟨hxr, hxp⟩ := List.mem_filter.mp hxf
      have hx : x = r := hinj hxr hr hxu
      rw [hx] at hxp
      simp [hnone] at hxp
    · intro ps hps p hp
      rw [hres] at hps
      cases hps
      obtain ⟨x, hxr, hxp⟩ := List.mem_filterMap.mp hp
      by_cases hxs : x.uid ∈ seen
      · simp [hxs] at hxp
      · rw [if_neg hxs] at hxp
        have hpu : p.uid = x.uid := process_email_uid _ _ _ _ hxp
        intro hpr
        rw [hpu] at hpr
        have hx : x = r := hinj hxr hr hpr
        rw [hx, hnone] at hxp
        cases hxp
  · intro p hsome
    refine ⟨?_, ?_⟩
    · rw [hseen, List.mem_append]
      right
      refine List.mem_map.mpr ⟨r, ?_, rfl⟩
      refine List.mem_filter.mpr ⟨hr, ?_⟩
      simp [hrs, hsome]
    · intro ps hps
      rw [hres] at hps
      cases hps
      refine List.mem_filterMap.mpr ⟨r, hr, ?_⟩
      rw [if_neg hrs]
      exact hsome

/-- A concrete date parser that accepts only the string "good". -/
def pdW : String → Option PyDateTime :=
  fun s => if s = "good" then some ⟨3, some 0⟩ else none

/-- A concrete record whose date the parser rejects. -/
def rBadW : RawEmail := ⟨1, "a", "b", "bad", "c"⟩

/-- A concrete record whose date the parser accepts. -/
def rGoodW : RawEmail := ⟨2, "a", "b", "good", "c"⟩

/-- The normalization of `rGoodW`. -/
def pGoodW : ProcessedEmail :=
  ⟨2, "a", "b", "c", ⟨3, some 0⟩, [], false, false, false⟩

/-- C10 witness: with a raising callback and two fresh records, the one
whose date fails to parse stays out of the seen-set and the returned
list, while the one that normalizes is marked seen and returned. -/
theorem full_sync_seen_after_normalize_witness :
    ((1 : Nat) ∉ (full_sync pdW 5 true (fun _ => true) (.ok [rBadW, rGoodW])
        [] none).seen ∧
     (∀ ps, (full_sync pdW 5 true (fun _ => true) (.ok [rBadW, rGoodW])
         [] none).result = .ok ps → ∀ p ∈ ps, p.uid ≠ 1)) ∧
    ((2 : Nat) ∈ (full_sync pdW 5 true (fun _ => true) (.ok [rBadW, rGoodW])
        [] none).seen ∧
     (∀ ps, (full_sync pdW 5 true (fun _ => true) (.ok [rBadW, rGoodW])
         [] none).result = .ok ps → pGoodW ∈ ps)) :=
  ⟨(full_sync_seen_after_normalize pdW 5 true (fun _ => true)
      [rBadW, rGoodW] [] none (by decide) rBadW (by simp) (by simp)).1
      (by decide),
   (full_sync_seen_after_normalize pdW 5 true (fun _ => true)
      [rBadW, rGoodW] [] none (by decide) rGoodW (by simp) (by simp)).2
      pGoodW (by decide)⟩

/-- C7: indexing two messages with the same uid in sequence leaves
exactly one document under that uid, holding the second write's fields
(full-document overwrite, last-write-wins). -/
theorem index_email_idempotent (store : EsStore) (m1 m2 : EmailDoc)
    (u f1 f2 : Nat) (h1 : m1.uid = some u) (h2 : m2.uid = some u) :
    docsAt (index_email (index_email store m1 f1) m2 f2) u = [m2] := by
  simp only [index_email, esIndex, h1, h2, docsAt, List.filter_append,
    List.filter_filter]
  have hnil : ∀ s : EsStore,
      List.filter (fun kv => decide (kv.1 = u) && decide ¬(kv.1 = u)) s =
        [] := by
    intro s
    refine List.filter_eq_nil_iff.mpr (fun kv _ => ?_)
    by_cases hk : kv.1 = u <;> simp [hk]
  simp [hnil]

/-- C7 witness: overwriting a prior document for uid 1 at a concrete
store. -/
theorem index_email_idempotent_witness :
    docsAt (index_email (index_email [(5, sampleDoc)] sampleDoc 9)
      { sampleDoc with subject := "second" } 9) 1 =
      [{ sampleDoc with subject := "second" }] :=
  index_email_idempotent [(5, sampleDoc)] sampleDoc
    { sampleDoc with subject := "second" } 1 9 9 rfl rfl

/-- The `match_all` fallback is the neutral query: a `must` list is
evaluated exactly as its clauses, the empty list matching everything. -/
lemma finalConds_all (tm : String → String → Bool) (d : EmailDoc)
    (cs : List Cond) :
    (finalConds cs).all (evalCond tm d) = cs.all (evalCond tm d) := by
  by_cases h : cs = [] <;> simp [finalConds, h, evalCond]

/-- C5: `search_emails` composes its filters as a logical conjunction —
a document matches the built query iff it is in the store and satisfies
every supplied filter: free-text match on subject/content/sender,
category match-any, exact interested flag, exact account, and inclusive
timestamp bounds; with no filters supplied every stored document
matches. -/
theorem search_filter_conjunction (tm : String → String → Bool)
    (store : List EmailDoc) (query : Option String)
    (categories : Option (List String)) (is_interested : Option Bool)
    (account : Option String) (from_date to_date : Option Nat)
    (d : EmailDoc) :
    d ∈ matchedDocs tm store query categories is_interested account
        from_date to_date ↔
      (d ∈ store ∧
       (∀ q, query = some q → q ≠ "" →
         (tm q d.subject ∨ tm q d.content ∨ tm q d.sender)) ∧
       (∀ cs, categories = some cs → cs ≠ [] →
         ∃ c ∈ cs, c ∈ d.categories) ∧
       (∀ b, is_interested = some b → d.is_interested = b) ∧
       (∀ a, account = some a → a ≠ "" → d.account = a) ∧
       (∀ g, from_date = some g → g ≤ d.timestamp) ∧
       (∀ l, to_date = some l → d.timestamp ≤ l)) := by
  rw [matchedDocs, List.mem_filter, finalConds_all, buildConds.eq_def]
  simp only [List.all_append, Bool.and_eq_true]
  have h1 : ((match query with
      | some q => if q ≠ "" then [Cond.multiMatch q] else []
      | none => []).all (evalCond tm d) = true) ↔
      (∀ q, query = some q → q ≠ "" →
        (tm q d.subject ∨ tm q d.content ∨ tm q d.sender)) := by
    cases query with
    | none => simp
    | some q => by_cases hq : q = "" <;> simp [hq, evalCond, or_assoc]
  have h2 : ((match categories with
      | some cs => if cs ≠ [] then [Cond.termsCategories cs] else []
      | none => []).all (evalCond tm d) = true) ↔
      (∀ cs, categories = some cs → cs ≠ [] →
        ∃ c ∈ cs, c ∈ d.categories) := by
    cases categories with
    | none => simp
    | some cs => by_cases hc : cs = [] <;> simp [hc, evalCond]
  have h3 : ((match is_interested with
      | some b => [Cond.termInterested b]
      | none => []).all (evalCond tm d) = true) ↔
      (∀ b, is_interested = some b → d.is_interested = b) := by
    cases is_interested with
    | none => simp
    | some b => simp [evalCond]
  have h4 : ((match account with
      | some a => if a ≠ "" then [Cond.termAccount a] else []
      | none => []).all (evalCond tm d) = true) ↔
      (∀ a, account = some a → a ≠ "" → d.account = a) := by
    cases account with
    | none => simp
    | some a => by_cases ha : a = "" <;> simp [ha, evalCond]
  have h5 : ((if from_date.isSome || to_date.isSome then
        [Cond.rangeTimestamp from_date to_date]
      else []).all (evalCond tm d) = true) ↔
      ((∀ g, from_date = some g → g ≤ d.timestamp) ∧
       (∀ l, to_date = some l → d.timestamp ≤ l)) := by
    cases from_date with
    | none => cases to_date with
      | none => simp
      | some l => simp [evalCond]
    | some g => cases to_date with
      | none => simp [evalCond]
      | some l => simp [evalCond]
  rw [h1, h2, h3, h4, h5]
  tauto

/-- `(N + S - 1) / S` is the ceiling of `N / S`: the least number of
pages of size `S` that cover `N` results. -/
lemma pages_is_ceil (N S : Nat) (hS : 1 ≤ S) :
    N ≤ ((N + S - 1) / S) * S ∧
    ∀ k, N ≤ k * S → (N + S - 1) / S ≤ k := by
  have hS' : 0 < S := hS
  constructor
  · cases N with
    | zero => exact Nat.zero_le _
    | succ n =>
      have he : (n + 1 + S - 1) / S = n / S + 1 := by
        rw [show n + 1 + S - 1 = n + S by omega, Nat.add_div_right n hS']
      rw [he]
      have hdm := Nat.div_add_mod n S
      have hml : n % S < S := Nat.mod_lt n hS'
      have : (n / S + 1) * S = S * (n / S) + S := by ring
      omega
  · intro k hk
    have : (N + S - 1) / S < k + 1 := by
      rw [Nat.div_lt_iff_lt_mul hS']
      have : (k + 1) * S = k * S + S := by ring
      omega
    omega

/-- Chopping a list into `⌈length/S⌉` consecutive windows of `S` and
concatenating them in order reproduces the list exactly. -/
lemma join_chunks {α : Type} (S : Nat) (hS : 1 ≤ S) :
    ∀ n (L : List α), L.length = n →
      ((List.range ((L.length + S - 1) / S)).map
        (fun i => (L.drop (i * S)).take S)).flatten = L := by
  have hS' : 0 < S := hS
  intro n
  induction n using Nat.strong_induction_on with
  | _ n ih =>
    intro L hL
    cases hn : n with
    | zero =>
      have hL0 : L = [] := List.length_eq_zero.mp (by omega)
      subst hL0
      have h0 : ((List.length ([] : List α)) + S - 1) / S = 0 := by
        simp only [List.length_nil]
        exact Nat.div_eq_of_lt (by omega)
      rw [h0]
      rfl
    | succ m =>
      by_cases hle : L.length ≤ S
      · have hpg : (L.length + S - 1) / S = 1 := by
          have h1 : L.length + S - 1 < 2 * S := by omega
          have h2 : S ≤ L.length + S - 1 := by omega
          have hlt : (L.length + S - 1) / S < 2 :=
            (Nat.div_lt_iff_lt_mul hS').mpr (by omega)
          have hge : 1 ≤ (L.length + S - 1) / S :=
            (Nat.le_div_iff_mul_le hS').mpr (by omega)
          omega
        rw [hpg]
        rw [show List.range 1 = [0] from by decide]
        simp only [List.map_cons, List.map_nil, List.flatten_cons,
          List.flatten_nil, List.append_nil, Nat.zero_mul, List.drop_zero]
        exact List.take_of_length_le hle
      · push_neg at hle
        have hpg : (L.length + S - 1) / S =
            ((L.drop S).length + S - 1) / S + 1 := by
          rw [List.length_drop]
          rw [show L.length + S - 1 = (L.length - S + S - 1) + S by omega,
            Nat.add_div_right _ hS']
        rw [hpg, List.range_succ_eq_map]
        simp only [List.map_cons, List.flatten_cons, List.map_map]
        have hshift : ∀ i : Nat,
            ((L.drop ((i + 1) * S)).take S) =
              (((L.drop S).drop (i * S)).take S) := by
          intro i
          have harith : (i + 1) * S = S + i * S := by ring
          rw [List.drop_drop, harith]
        have hmapeq :
            (List.range (((L.drop S).length + S - 1) / S)).map
              ((fun i => (L.drop (i * S)).take S) ∘ Nat.succ) =
            (List.range (((L.drop S).length + S - 1) / S)).map
              (fun i => ((L.drop S).drop (i * S)).take S) := by
          refine List.map_congr_left (fun i _ => ?_)
          simpa using hshift i
        rw [hmapeq]
        have hrec := ih (L.drop S).length
          (by rw [List.length_drop]; omega) (L.drop S) rfl
        rw [hrec]
        simp

/-- C4: `search_emails` sorts the matches by timestamp descending; the
reported total is the match count and the reported page count is
`ceil(total/size)` (the least number of size-`S` pages covering the
matches); page `p` (1-indexed) is the window of the sorted matches from
`(p-1)*S` to `p*S - 1`; and concatenating pages `1..pages` in order
reproduces the full descending-sorted result list exactly — no
duplicates, no gaps. -/
theorem search_pagination (tm : String → String → Bool)
    (store : List EmailDoc) (qy : Option String)
    (ct : Option (List String)) (it : Option Bool) (ac : Option String)
    (fd td : Option Nat) (S : Nat) (hS : 1 ≤ S) :
    List.Sorted tsGE
      (sortDesc (matchedDocs tm store qy ct it ac fd td)) ∧
    (sortDesc (matchedDocs tm store qy ct it ac fd td)).Perm
      (matchedDocs tm store qy ct it ac fd td) ∧
    (∀ p, (search_emails tm store qy ct it ac fd td p S).total =
      (matchedDocs tm store qy ct it ac fd td).length) ∧
    (∀ p, (matchedDocs tm store qy ct it ac fd td).length ≤
        (search_emails tm store qy ct it ac fd td p S).pages * S ∧
      ∀ k, (matchedDocs tm store qy ct it ac fd td).length ≤ k * S →
        (search_emails tm store qy ct it ac fd td p S).pages ≤ k) ∧
    (∀ p, (search_emails tm store qy ct it ac fd td p S).emails =
      ((sortDesc (matchedDocs tm store qy ct it ac fd td)).drop
        ((p - 1) * S)).take S) ∧
    ((List.range
        ((search_emails tm store qy ct it ac fd td 1 S).pages)).map
      (fun i => (search_emails tm store qy ct it ac fd td (i + 1)
        S).emails)).flatten =
      sortDesc (matchedDocs tm store qy ct it ac fd td) := by
  have hperm := List.perm_insertionSort tsGE
    (matchedDocs tm store qy ct it ac fd td)
  have hlen : (sortDesc (matchedDocs tm store qy ct it ac fd td)).length
      = (matchedDocs tm store qy ct it ac fd td).length :=
    hperm.length_eq
  refine ⟨List.sorted_insertionSort tsGE _, hperm, fun p => rfl,
    fun p => pages_is_ceil _ S hS, fun p => rfl, ?_⟩
  have hJ := join_chunks S hS
    (sortDesc (matchedDocs tm store qy ct it ac fd td)).length
    (sortDesc (matchedDocs tm store qy ct it ac fd td)) rfl
  rw [hlen] at hJ
  exact hJ

/-- A stored document with timestamp 1. -/
def dW1 : EmailDoc := ⟨some 1, "s1", "x", "b", 1, [], false, false,
  false, "a"⟩

/-- A stored document with timestamp 2. -/
def dW2 : EmailDoc := ⟨some 2, "s2", "x", "b", 2, [], false, false,
  false, "a"⟩

/-- A stored document with timestamp 3. -/
def dW3 : EmailDoc := ⟨some 3, "s3", "x", "b", 3, [], false, false,
  false, "a"⟩

/-- A concrete three-document store. -/
def storeW : List EmailDoc := [dW1, dW2, dW3]

/-- C4 witness: the pagination contract instantiated at a filterless
search over three documents with page size 2. -/
theorem search_pagination_witness :
    (1 : Nat) ≤ 2 ∧
    (List.Sorted tsGE
      (sortDesc (matchedDocs (fun _ _ => false) storeW none none none
        none none none)) ∧
    (sortDesc (matchedDocs (fun _ _ => false) storeW none none none
        none none none)).Perm
      (matchedDocs (fun _ _ => false) storeW none none none none none
        none) ∧
    (∀ p, (search_emails (fun _ _ => false) storeW none none none none
        none none p 2).total =
      (matchedDocs (fun _ _ => false) storeW none none none none none
        none).length) ∧
    (∀ p, (matchedDocs (fun _ _ => false) storeW none none none none
        none none).length ≤
        (search_emails (fun _ _ => false) storeW none none none none
          none none p 2).pages * 2 ∧
      ∀ k, (matchedDocs (fun _ _ => false) storeW none none none none
          none none).length ≤ k * 2 →
        (search_emails (fun _ _ => false) storeW none none none none
          none none p 2).pages ≤ k) ∧
    (∀ p, (search_emails (fun _ _ => false) storeW none none none none
        none none p 2).emails =
      ((sortDesc (matchedDocs (fun _ _ => false) storeW none none none
        none none none)).drop ((p - 1) * 2)).take 2) ∧
    ((List.range ((search_emails (fun _ _ => false) storeW none none
        none none none none 1 2).pages)).map
      (fun i => (search_emails (fun _ _ => false) storeW none none none
        none none none (i + 1) 2).emails)).flatten =
      sortDesc (matchedDocs (fun _ _ => false) storeW none none none
        none none none)) :=
  ⟨by decide, search_pagination (fun _ _ => false) storeW none none none
    none none none 2 (by decide)⟩

/-- C8: for an id absent from the store, `get_email` returns `None`,
`update_email` and `delete_email` return `False`, none of them raising;
any other storage-layer failure is propagated unmodified by all three. -/
theorem missing_id_ops (store : EsStore) (id : Nat)
    (h : ∀ kv ∈ store, kv.1 ≠ id) :
    (get_email (clientGet store id) = .ok none ∧
     update_email (clientUpdate store id) = .ok false ∧
     delete_email (clientDelete store id) = .ok false) ∧
    (∀ s, get_email (.error (.other s)) = .error (.other s) ∧
          update_email (.error (.other s)) = .error (.other s) ∧
          delete_email (.error (.other s)) = .error (.other s)) := by
  have hfind : List.find? (fun kv => kv.1 = id) store = none := by
    refine List.find?_eq_none.mpr (fun kv hkv => ?_)
    simpa using h kv hkv
  exact ⟨by simp [get_email, update_email, delete_email, clientGet,
    clientUpdate, clientDelete, hfind], fun s => ⟨rfl, rfl, rfl⟩⟩

/-- C8 witness: the not-found and propagation behaviour at a concrete
store missing id 2. -/
theorem missing_id_ops_witness :
    (get_email (clientGet [(1, sampleDoc)] 2) = .ok none ∧
     update_email (clientUpdate [(1, sampleDoc)] 2) = .ok false ∧
     delete_email (clientDelete [(1, sampleDoc)] 2) = .ok false) ∧
    (get_email (.error (.other "boom")) = .error (.other "boom") ∧
     update_email (.error (.other "boom")) = .error (.other "boom") ∧
     delete_email (.error (.other "boom")) = .error (.other "boom")) :=
  ⟨(missing_id_ops [(1, sampleDoc)] 2 (by decide)).1,
   (missing_id_ops [(1, sampleDoc)] 2 (by decide)).2 "boom"⟩
